import Mathlib

set_option maxHeartbeats 1000000
set_option maxRecDepth 16384

/-!
Shallow embedding of the core of `calendar-email-digest`
(`src/calendar_email_digest.py`): the event normalizer (`parse_event`,
`parse_date`), the link extractor (`parse_url`), the document renderer
(`html_summary`, `html_details`, `plaintext_summary`, `plaintext_details`,
`generate_html_email`, `generate_plaintext_email`) and the digest assembler
(`format_events`, `buildDigest`, the latter modelling the empty-events check
of `main`).

Strings are modelled as lists of characters (`Str`), so that every operation
is a computable structural recursion and closed instances evaluate by
`decide`.  The embedding models `'\n'` as the line separator of
`str.splitlines`, which is the only separator occurring in the inputs of
interest.  The two regular expressions of the source
(`(https?:\/\/\S+?)(\.?([\s\n]|$))` under `re.search`/`re.sub`, and the
email pattern `([A-Za-z1-9-._]+@[A-Za-z1-9-._]+\.[A-Za-z1-9]+)`) are
modelled by explicit leftmost-match scanners that implement exactly the
lazy (`\S+?`) respectively greedy (`+`) backtracking semantics of the
Python `re` module on those patterns.
-/

abbrev Str := List Char

/-- Python whitespace, as recognised by `str.strip` and the regex class `\s`. -/
def isPySpace (c : Char) : Bool :=
  c == ' ' || c == '\t' || c == '\n' || c == '\r' || c == '\x0b' || c == '\x0c'

/-- Python `str.strip()`. -/
def pyStrip (s : Str) : Str :=
  ((s.dropWhile isPySpace).reverse.dropWhile isPySpace).reverse

/-- Python `str.lower()` (ASCII). -/
def pyLower (s : Str) : Str := s.map Char.toLower

/-- Split on every occurrence of `sep`, keeping empty pieces. -/
def splitOnChar (sep : Char) : Str → List Str
  | [] => [[]]
  | c :: rest =>
    let r := splitOnChar sep rest
    if c == sep then [] :: r
    else
      match r with
      | [] => [[c]]
      | x :: xs => (c :: x) :: xs

/-- Python `str.splitlines()` with `'\n'` as the separator: an empty string
gives no lines, and a trailing separator produces no trailing empty line. -/
def pySplitlines (s : Str) : List Str :=
  match s with
  | [] => []
  | _ =>
    let parts := splitOnChar '\n' s
    if parts.getLast? = some [] then parts.dropLast else parts

/-- Split at the first `':'`, as `line.split(':', 1)`: `none` when the line
has no colon, otherwise the text before and after the first colon. -/
def breakAtColon : Str → Option (Str × Str)
  | [] => none
  | c :: rest =>
    if c == ':' then some ([], rest)
    else (breakAtColon rest).map (fun pr => (c :: pr.1, pr.2))

/-- Decimal digits of a natural number (fuel-based so it reduces). -/
def natDigitsAux : Nat → Nat → Str
  | 0, _ => []
  | fuel + 1, n => if n = 0 then [] else natDigitsAux fuel (n / 10) ++ [Char.ofNat (48 + n % 10)]

/-- Python `str(index)` for a natural number. -/
def natStr (n : Nat) : Str := if n = 0 then ['0'] else natDigitsAux (n + 1) n

/-- Compare a character with a lowercase letter, optionally case-insensitively
(the `re.I` flag). -/
def lcEq (ci : Bool) (a b : Char) : Bool := (if ci then a.toLower else a) == b

/-- Length of a match of `https?://` at the head of the text, if any. -/
def schemeLen (ci : Bool) : Str → Option Nat
  | c1 :: c2 :: c3 :: c4 :: ':' :: '/' :: '/' :: _ =>
    if lcEq ci c1 'h' && lcEq ci c2 't' && lcEq ci c3 't' && lcEq ci c4 'p' then some 7 else none
  | c1 :: c2 :: c3 :: c4 :: c5 :: ':' :: '/' :: '/' :: _ =>
    if lcEq ci c1 'h' && lcEq ci c2 't' && lcEq ci c3 't' && lcEq ci c4 'p' && lcEq ci c5 's' then
      some 8
    else none
  | _ => none

/-- Match `https?://` at the head of the text: the scheme as written and the
remaining text. -/
def matchScheme (ci : Bool) (cs : Str) : Option (Str × Str) :=
  (schemeLen ci cs).map (fun n => (cs.take n, cs.drop n))

/-- Attempt the pattern `(https?:\/\/\S+?)(\.?([\s\n]|$))` anchored at the head
of `cs`.  Returns `(group1, group2, rest)` where `group1 ++ group2` is the
whole match (`group(0)`): the lazy `\S+?` stops at the first position where
the tail can match, which is the end of the maximal non-whitespace run —
one character earlier when that run's last character is a period followed by
whitespace or end of input, in which case the period moves to `group2`. -/
def urlMatchHere (ci : Bool) (cs : Str) : Option (Str × Str × Str) :=
  match matchScheme ci cs with
  | none => none
  | some (sch, rest) =>
    let tok := rest.takeWhile (fun c => !isPySpace c)
    let after := rest.dropWhile (fun c => !isPySpace c)
    if tok = [] then none
    else if 2 ≤ tok.length ∧ tok.getLast? = some '.' then
      some (sch ++ tok.dropLast, '.' :: after.take 1, after.drop 1)
    else
      some (sch ++ tok, after.take 1, after.drop 1)

/-- A leftmost match of the URL pattern: the text before the match, the two
capture groups, and the text after the match. -/
structure UrlMatch where
  pre : Str
  g1 : Str
  g2 : Str
  rest : Str
deriving Repr, DecidableEq

/-- `re.search` of the URL pattern: scan left to right for the first position
where `urlMatchHere` succeeds. -/
def urlSearch (ci : Bool) : Str → Option UrlMatch
  | [] => none
  | c :: cs =>
    match urlMatchHere ci (c :: cs) with
    | some (g1, g2, rest) => some ⟨[], g1, g2, rest⟩
    | none => (urlSearch ci cs).map (fun m => ⟨c :: m.pre, m.g1, m.g2, m.rest⟩)

/-- Errors of the core: a raw event missing a required field, or a template
referencing an undefined placeholder. -/
inductive DigestError where
  | malformedEvent (field : String) : DigestError
  | templateSubstitution (field : String) : DigestError
deriving Repr, DecidableEq

instance {ε α : Type} [DecidableEq ε] [DecidableEq α] : DecidableEq (Except ε α) := fun x y =>
  match x, y with
  | .ok a, .ok b => if h : a = b then .isTrue (by rw [h]) else .isFalse (by simp [h])
  | .error a, .error b => if h : a = b then .isTrue (by rw [h]) else .isFalse (by simp [h])
  | .ok _, .error _ => .isFalse (by simp)
  | .error _, .ok _ => .isFalse (by simp)

/-- A raw `start`/`end` value from the calendar API: a date-only or a
date-time record. -/
structure RawTime where
  date : Option Str
  dateTime : Option Str
deriving Repr, DecidableEq

/-- A raw calendar API event record; every field the code accesses may be
absent (Python `KeyError` on required ones). -/
structure RawEvent where
  start? : Option RawTime
  end? : Option RawTime
  summary? : Option Str
  description? : Option Str
  htmlLink? : Option Str
deriving Repr, DecidableEq

/-- The stripped lines of the event description, as built on line 106 of the
source: `[l.strip() for l in event.get('description', '').splitlines()]`. -/
def descLines (ev : RawEvent) : List Str :=
  (pySplitlines (ev.description?.getD [])).map pyStrip

/-- One line of the inner loop of `parse_url`: if the text before the line's
first colon, stripped and lowercased, equals the preference term, search the
text after the colon for the URL pattern and return `m.group(0)`. -/
def lineUrl (linkpref : Str) (line : Str) : Option Str :=
  match breakAtColon line with
  | none => none
  | some (before, after) =>
    if pyLower (pyStrip before) = linkpref then
      (urlSearch false after).map (fun m => m.g1 ++ m.g2)
    else none

/-- The two nested loops of `parse_url` (preference terms outer, lines
inner), returning on the first hit. -/
def linkScan (ev : RawEvent) (linkprefs : List Str) : Option Str :=
  linkprefs.findSome? (fun p => (descLines ev).findSome? (fun l => lineUrl p l))

/-- `parse_url` (source lines 105-114): the nested preference scan, falling
back to `event['htmlLink']`. -/
def parse_url (ev : RawEvent) (linkprefs : List Str) : Except DigestError Str :=
  match linkScan ev linkprefs with
  | some u => .ok u
  | none =>
    match ev.htmlLink? with
    | some h => .ok h
    | none => .error (.malformedEvent "htmlLink")

/-- `parse_date` (source lines 100-103): the all-day `date` verbatim,
otherwise the first ten characters of `dateTime`. -/
def parse_date (t : RawTime) : Except DigestError Str :=
  match t.date with
  | some d => .ok d
  | none =>
    match t.dateTime with
    | some dt => .ok (dt.take 10)
    | none => .error (.malformedEvent "dateTime")

/-- A required timespec field: `event['start']` / `event['end']`. -/
def reqTime (field : String) (t? : Option RawTime) : Except DigestError Str :=
  match t? with
  | some t => parse_date t
  | none => .error (.malformedEvent field)

/-- The required title: `event['summary'].strip()`. -/
def reqTitle (s? : Option Str) : Except DigestError Str :=
  match s? with
  | some s => .ok (pyStrip s)
  | none => .error (.malformedEvent "summary")

/-- The normalized event model. -/
structure Event where
  start : Str
  «end» : Str
  title : Str
  summary : Str
  description : Str
  url : Str
deriving Repr, DecidableEq

/-- `parse_event` (source lines 116-124).  The required accesses happen in
the evaluation order of the `dict(...)` call: start, end, title, then the
URL resolution. -/
def parse_event (ev : RawEvent) (linkprefs : List Str) : Except DigestError Event :=
  match reqTime "start" ev.start?, reqTime "end" ev.end?, reqTitle ev.summary?,
      parse_url ev linkprefs with
  | .ok s, .ok e, .ok t, .ok u =>
    .ok { start := s, «end» := e, title := t,
          summary := (pySplitlines (pyStrip (ev.description?.getD []))).headD [],
          description := pyStrip (ev.description?.getD []), url := u }
  | .error er, _, _, _ => .error er
  | _, .error er, _, _ => .error er
  | _, _, .error er, _ => .error er
  | _, _, _, .error er => .error er

/-- The list comprehension of `get_events` (source line 260): normalize every
raw item, aborting on the first failure. -/
def parse_events (items : List RawEvent) (linkprefs : List Str) :
    Except DigestError (List Event) :=
  match items with
  | [] => .ok []
  | e :: rest =>
    match parse_event e linkprefs, parse_events rest linkprefs with
    | .ok ev, .ok evs => .ok (ev :: evs)
    | .error er, _ => .error er
    | _, .error er => .error er

/-- A template is a sequence of literal chunks and named placeholders,
modelling the `%(name)s` directives that Python `template % mapping`
substitutes. -/
inductive TItem where
  | lit (s : Str) : TItem
  | field (name : String) : TItem
deriving Repr, DecidableEq

abbrev Template := List TItem

/-- `template % mapping`: substitute each placeholder, failing on a
placeholder absent from the mapping (Python `KeyError`, the spec's
`TemplateSubstitutionError`). -/
def substTemplate (t : Template) (m : String → Option Str) : Except DigestError Str :=
  match t with
  | [] => .ok []
  | .lit s :: rest => (substTemplate rest m).map (fun r => s ++ r)
  | .field n :: rest =>
    match m n with
    | some v => (substTemplate rest m).map (fun r => v ++ r)
    | none => .error (.templateSubstitution n)

/-- `datespec` (source lines 126-131). -/
def datespec (e : Event) (sep : Str) : Str :=
  if e.start = e.«end» then e.start else e.start ++ sep ++ e.«end»

/-- The keys of `dict(event)`: the six fields of the normalized event,
looked up verbatim. -/
def eventMap (e : Event) : String → Option Str
  | "start" => some e.start
  | "end" => some e.«end»
  | "title" => some e.title
  | "summary" => some e.summary
  | "description" => some e.description
  | "url" => some e.url
  | _ => none

/-- The anchor `<a href="\1">\1</a>` built by the URL `re.sub` replacement. -/
def anchorFor (u : Str) : Str :=
  "<a href=\"".toList ++ u ++ "\">".toList ++ u ++ "</a>".toList

/-- One pass of `re.sub` for the URL pattern (case-insensitive, as in
`html_details`): replace each leftmost match by the anchor on `group(1)`
followed by `group(2)`, and continue after the match.  Fuel-based so the
definition reduces; any fuel at least the length of the text is enough. -/
def urlAutolinkGo : Nat → Str → Str
  | 0, cs => cs
  | fuel + 1, cs =>
    match urlSearch true cs with
    | none => cs
    | some m => m.pre ++ anchorFor m.g1 ++ m.g2 ++ urlAutolinkGo fuel m.rest

/-- The URL `re.sub` of `html_details` (source line 138). -/
def urlAutolink (s : Str) : Str := urlAutolinkGo (s.length + 1) s

/-- Characters of the email regex class `[A-Za-z1-9-._]`. -/
def isEmailL (c : Char) : Bool :=
  ('A' ≤ c && c ≤ 'Z') || ('a' ≤ c && c ≤ 'z') || ('1' ≤ c && c ≤ '9') ||
    c == '-' || c == '.' || c == '_'

/-- Characters of the email regex class `[A-Za-z1-9]`. -/
def isEmailD (c : Char) : Bool :=
  ('A' ≤ c && c ≤ 'Z') || ('a' ≤ c && c ≤ 'z') || ('1' ≤ c && c ≤ '9')

/-- The last `'.'` of the list that is immediately followed by a character of
the class `[A-Za-z1-9]`, as the greedy `L+\.` backtracks from the right:
returns the parts before and after that period. -/
def lastViableDot : Str → Option (Str × Str)
  | [] => none
  | c :: rest =>
    match lastViableDot rest with
    | some (pre, post) => some (c :: pre, post)
    | none =>
      if c == '.' && (match rest with | [] => false | d :: _ => isEmailD d) then
        some ([], rest)
      else none

/-- Attempt the email pattern `([A-Za-z1-9-._]+@[A-Za-z1-9-._]+\.[A-Za-z1-9]+)`
anchored at the head of `cs`: returns the match and the rest.  The greedy
`L+` runs are the maximal runs; the `\.` binds to the last period of the
domain run that is followed by a `[A-Za-z1-9]` character and is not the
run's first character. -/
def emailMatchHere (cs : Str) : Option (Str × Str) :=
  let run1 := cs.takeWhile isEmailL
  if run1 = [] then none
  else
    match cs.drop run1.length with
    | '@' :: rest2 =>
      match rest2.takeWhile isEmailL with
      | [] => none
      | c :: crest =>
        match lastViableDot crest with
        | none => none
        | some (pre, post) =>
          let drun := post.takeWhile isEmailD
          some (run1 ++ '@' :: c :: (pre ++ '.' :: drun),
                post.drop drun.length ++ rest2.drop (c :: crest).length)
    | _ => none

/-- Leftmost email match: text before, the match, text after. -/
def emailSearch : Str → Option (Str × Str × Str)
  | [] => none
  | c :: cs =>
    match emailMatchHere (c :: cs) with
    | some (m, r) => some ([], m, r)
    | none => (emailSearch cs).map (fun pr => (c :: pr.1, pr.2.1, pr.2.2))

/-- The email `re.sub` of `html_details` (source line 139), fuel-based. -/
def emailAutolinkGo : Nat → Str → Str
  | 0, cs => cs
  | fuel + 1, cs =>
    match emailSearch cs with
    | none => cs
    | some (pre, m, rest) =>
      pre ++ "<a href=\"mailto:".toList ++ m ++ "\">".toList ++ m ++ "</a>".toList ++
        emailAutolinkGo fuel rest

def emailAutolink (s : Str) : Str := emailAutolinkGo (s.length + 1) s

/-- `description.replace('\n', '<br>\n')` (source line 143). -/
def nlToBr (s : Str) : Str :=
  s.flatMap (fun c => if c == '\n' then "<br>\n".toList else [c])

/-- The mapping `dict(event, datespec=...)` used by `html_summary`
(source lines 133-135); note it carries no index. -/
def htmlSummaryMap (e : Event) : String → Option Str := fun n =>
  if n = "datespec" then some (datespec e " &ndash; ".toList) else eventMap e n

/-- `html_summary` (source lines 133-135). -/
def html_summary (e : Event) (tmpl : Template) : Except DigestError Str :=
  substTemplate tmpl (htmlSummaryMap e)

/-- The mapping `dict(event, index=..., datespec=..., description=...)` used
by `html_details` (source lines 137-143): the description placeholder is the
URL-autolinked, email-autolinked text with newlines turned into `<br>`. -/
def htmlDetailsMap (e : Event) (index : Nat) : String → Option Str := fun n =>
  if n = "description" then some (nlToBr (emailAutolink (urlAutolink e.description)))
  else if n = "index" then some (natStr index)
  else if n = "datespec" then some (datespec e " &ndash; ".toList)
  else eventMap e n

/-- `html_details` (source lines 137-143). -/
def html_details (e : Event) (index : Nat) (tmpl : Template) : Except DigestError Str :=
  substTemplate tmpl (htmlDetailsMap e index)

/-- The mapping of `plaintext_summary` (source lines 151-155), with the
`indent` sized to the digit count of the index plus two. -/
def plaintextSummaryMap (e : Event) (index : Nat) : String → Option Str := fun n =>
  if n = "index" then some (natStr index)
  else if n = "indent" then some (List.replicate ((natStr index).length + 2) ' ')
  else if n = "datespec" then some (datespec e " -- ".toList)
  else eventMap e n

/-- `plaintext_summary` (source lines 151-155). -/
def plaintext_summary (e : Event) (index : Nat) (tmpl : Template) : Except DigestError Str :=
  substTemplate tmpl (plaintextSummaryMap e index)

/-- The mapping of `plaintext_details` (source lines 157-160). -/
def plaintextDetailsMap (e : Event) (index : Nat) : String → Option Str := fun n =>
  if n = "index" then some (natStr index)
  else if n = "datespec" then some (datespec e " -- ".toList)
  else eventMap e n

/-- `plaintext_details` (source lines 157-160). -/
def plaintext_details (e : Event) (index : Nat) (tmpl : Template) : Except DigestError Str :=
  substTemplate tmpl (plaintextDetailsMap e index)

/-- Render every event with a per-event function, aborting on the first
failure (the generator expressions inside the `join` calls). -/
def renderAll (f : Event → Except DigestError Str) :
    List Event → Except DigestError (List Str)
  | [] => .ok []
  | e :: rest =>
    match f e, renderAll f rest with
    | .ok s, .ok l => .ok (s :: l)
    | .error er, _ => .error er
    | _, .error er => .error er

/-- Render every event with its 1-based index, as
`for i, e in enumerate(events)` with `f(e, i + 1)`: `i0` is the index of the
first event. -/
def renderAllIdx (f : Event → Nat → Except DigestError Str) (i0 : Nat) :
    List Event → Except DigestError (List Str)
  | [] => .ok []
  | e :: rest =>
    match f e i0, renderAllIdx f (i0 + 1) rest with
    | .ok s, .ok l => .ok (s :: l)
    | .error er, _ => .error er
    | _, .error er => .error er

/-- The detail separator of the plaintext digest: blank line, a 75-character
rule, blank line. -/
def plaintextSep : Str := '\n' :: '\n' :: (List.replicate 75 '-' ++ ['\n', '\n'])

/-- `generate_html_email` (source lines 145-149): summaries carry no index,
details are numbered from 1; both are joined with newlines into the outer
template.  The wall-clock date is the `today` parameter. -/
def generate_html_email (events : List Event) (tmpl sumT detT : Template) (today : Str) :
    Except DigestError Str :=
  match renderAll (fun e => html_summary e sumT) events,
      renderAllIdx (fun e i => html_details e i detT) 1 events with
  | .ok sums, .ok dets =>
    substTemplate tmpl (fun n =>
      if n = "date" then some today
      else if n = "summary" then some (List.intercalate ['\n'] sums)
      else if n = "details" then some (List.intercalate ['\n'] dets)
      else none)
  | .error er, _ => .error er
  | _, .error er => .error er

/-- `generate_plaintext_email` (source lines 163-167): summaries and details
are both numbered from 1; details are joined with the 75-dash rule. -/
def generate_plaintext_email (events : List Event) (tmpl sumT detT : Template) (today : Str) :
    Except DigestError Str :=
  match renderAllIdx (fun e i => plaintext_summary e i sumT) 1 events,
      renderAllIdx (fun e i => plaintext_details e i detT) 1 events with
  | .ok sums, .ok dets =>
    substTemplate tmpl (fun n =>
      if n = "date" then some today
      else if n = "summary" then some (List.intercalate ['\n'] sums)
      else if n = "details" then some (List.intercalate plaintextSep dets)
      else none)
  | .error er, _ => .error er
  | _, .error er => .error er

/-- The six templates supplied by configuration. -/
structure TemplateConfig where
  htmlTemplate : Template
  htmlSummaryT : Template
  htmlDetailsT : Template
  ptTemplate : Template
  ptSummaryT : Template
  ptDetailsT : Template
deriving Repr

/-- `format_events` (source lines 262-271), restricted to the two rendered
documents (the MIME composition is a transport concern). -/
def format_events (cfg : TemplateConfig) (events : List Event) (today : Str) :
    Except DigestError (Str × Str) :=
  match generate_plaintext_email events cfg.ptTemplate cfg.ptSummaryT cfg.ptDetailsT today with
  | .error er => .error er
  | .ok pt =>
    match generate_html_email events cfg.htmlTemplate cfg.htmlSummaryT cfg.htmlDetailsT today with
    | .error er => .error er
    | .ok ht => .ok (pt, ht)

/-- The assembler's result: the distinct empty-events signal, or the two
rendered documents. -/
inductive DigestResult where
  | empty : DigestResult
  | docs (plaintext html : Str) : DigestResult
deriving Repr, DecidableEq

/-- The digest assembly pipeline: normalize every raw event, signal the
empty-events condition without rendering (the `if not events: return`
of `main`, source lines 352-355), otherwise render both documents. -/
def buildDigest (items : List RawEvent) (linkprefs : List Str) (cfg : TemplateConfig)
    (today : Str) : Except DigestError DigestResult :=
  match parse_events items linkprefs with
  | .error er => .error er
  | .ok [] => .ok .empty
  | .ok events =>
    match format_events cfg events today with
    | .error er => .error er
    | .ok (pt, ht) => .ok (.docs pt ht)

/-! ### Concrete instances used in the closed statements below -/

/-- The preference order of the spec's priority example. -/
def prefsHW : List Str := ["homepage".toList, "wiki".toList]

/-- A description holding a `wiki:` line before a `homepage:` line. -/
def evC1 : RawEvent :=
  ⟨none, none, none,
   some "wiki: http://wiki.example.org/page\nhomepage: http://www.example.org/home".toList,
   some "http://cal.example/evt".toList⟩

/-- A matched line whose URL is followed by a period and a space. -/
def evC2 : RawEvent :=
  ⟨none, none, none, some "wiki: See http://example.com. for details".toList,
   some "http://fallback.example/".toList⟩

/-- A first `wiki:` line with no URL, then a `homepage:` URL, then a later
`wiki:` line with a URL. -/
def evC3 : RawEvent :=
  ⟨none, none, none,
   some "wiki: see notes\nhomepage: http://home.example/x\nwiki: http://wiki.example/y".toList,
   some "http://cal.example/e3".toList⟩

/-- A well-formed raw event with no description. -/
def evC4 : RawEvent :=
  ⟨some ⟨some "2024-05-01".toList, none⟩, some ⟨some "2024-05-01".toList, none⟩,
   some " Meeting ".toList, none, some "http://cal.example/xyz".toList⟩

/-- The event `parse_event` produces from `evC4`. -/
def evtC4 : Event :=
  ⟨"2024-05-01".toList, "2024-05-01".toList, "Meeting".toList, [], [],
   "http://cal.example/xyz".toList⟩

/-- A small event with the given title, for the renderer instances. -/
def mkEv (t : String) : Event :=
  ⟨"2024-05-01".toList, "2024-05-02".toList, t.toList, "s".toList, "d".toList,
   "http://u.example/".toList⟩

def events5 : List Event := [mkEv "Alpha", mkEv "Beta", mkEv "Gamma"]

def sumT5 : Template := [.field "title"]
def detT5 : Template := [.field "index", .lit ": ".toList, .field "title"]
def psumT5 : Template := [.field "index", .lit ") ".toList, .field "title"]
def pdetT5 : Template := [.field "index", .lit ". ".toList, .field "title"]

/-- A raw event lacking the `summary` (title) field. -/
def rawBad : RawEvent :=
  ⟨some ⟨some "2024-05-01".toList, none⟩, some ⟨some "2024-05-01".toList, none⟩,
   none, none, some "http://cal.example/b".toList⟩

def itemsC6 : List RawEvent := [evC4, rawBad]

def cfg0 : TemplateConfig := ⟨[], [], [], [], [], []⟩

def today0 : Str := "2024-05-01".toList

/-- A small event with the given description, for the auto-linking instances. -/
def mkDescEv (d : String) : Event :=
  ⟨"2024-05-01".toList, "2024-05-01".toList, "T".toList, "s".toList, d.toList,
   "http://u.example/".toList⟩

def evC8url : Event := mkDescEv "see http://example.com/page for info"
def evC8mail : Event := mkDescEv "contact admin@example.org today"

/-- An event whose text fields carry HTML markup characters. -/
def evC9 : Event :=
  ⟨"2024-05-01".toList, "2024-05-01".toList, "<i>T</i> & Q".toList, "<b>S</b>".toList,
   "<b>R&D</b> news".toList, "http://u.example/".toList⟩

/-- A description whose lines hold no colon; the first line equals the term
`homepage` exactly. -/
def evC10 : RawEvent :=
  ⟨none, none, none, some "homepage\nwiki page here".toList,
   some "http://cal.example/e1".toList⟩

/-! ### Helper lemmas -/

theorem breakAtColon_eq_none {line : Str} (h : ':' ∉ line) : breakAtColon line = none := by
  induction line with
  | nil => rfl
  | cons c rest ih =>
    simp only [List.mem_cons, not_or] at h
    simp only [breakAtColon]
    rw [if_neg (by simpa using Ne.symm h.1), ih h.2]
    rfl

theorem lineUrl_of_no_colon {p line : Str} (h : ':' ∉ line) : lineUrl p line = none := by
  unfold lineUrl
  rw [breakAtColon_eq_none h]

theorem schemeLen_le {ci : Bool} {cs : Str} {n : Nat} (h : schemeLen ci cs = some n) :
    1 ≤ n ∧ n ≤ cs.length := by
  unfold schemeLen at h
  split at h
  · split at h
    · cases h
      simp only [List.length_cons]
      omega
    · exact absurd h (by simp)
  · split at h
    · cases h
      simp only [List.length_cons]
      omega
    · exact absurd h (by simp)
  · exact absurd h (by simp)

theorem matchScheme_decomp {ci : Bool} {cs sch rest : Str}
    (h : matchScheme ci cs = some (sch, rest)) : cs = sch ++ rest ∧ sch ≠ [] := by
  unfold matchScheme at h
  cases hs : schemeLen ci cs with
  | none => rw [hs] at h; exact absurd h (by simp)
  | some n =>
    rw [hs] at h
    simp only [Option.map_some', Option.some.injEq, Prod.mk.injEq] at h
    obtain ⟨h1, h2⟩ := h
    obtain ⟨hn1, hn2⟩ := schemeLen_le hs
    subst h1 h2
    refine ⟨(List.take_append_drop n cs).symm, ?_⟩
    intro hne
    have := congrArg List.length hne
    simp only [List.length_take, List.length_nil] at this
    omega

theorem dropLast_append_of_getLast? {l : Str} {c : Char} (h : l.getLast? = some c) :
    l.dropLast ++ [c] = l := by
  induction l with
  | nil => simp at h
  | cons a rest ih =>
    cases rest with
    | nil => simp at h; simp [h]
    | cons b rest2 =>
      rw [List.getLast?_cons_cons] at h
      simp only [List.dropLast_cons₂, List.cons_append]
      rw [ih h]

theorem urlMatchHere_decomp {ci : Bool} {cs g1 g2 rest : Str}
    (h : urlMatchHere ci cs = some (g1, g2, rest)) :
    cs = g1 ++ (g2 ++ rest) ∧ g1 ≠ [] := by
  unfold urlMatchHere at h
  cases hs : matchScheme ci cs with
  | none => rw [hs] at h; exact absurd h (by simp)
  | some pr =>
    obtain ⟨sch, rest0⟩ := pr
    rw [hs] at h
    obtain ⟨hcs, hsch⟩ := matchScheme_decomp hs
    simp only at h
    set tok := rest0.takeWhile (fun c => !isPySpace c) with htokd
    set aft := rest0.dropWhile (fun c => !isPySpace c) with haftd
    have hta : tok ++ aft = rest0 := List.takeWhile_append_dropWhile _ _
    have htd : aft.take 1 ++ aft.drop 1 = aft := List.take_append_drop 1 _
    by_cases htok : tok = []
    · rw [if_pos htok] at h; exact absurd h (by simp)
    · rw [if_neg htok] at h
      by_cases hdot : 2 ≤ tok.length ∧ tok.getLast? = some '.'
      · rw [if_pos hdot] at h
        simp only [Option.some.injEq, Prod.mk.injEq] at h
        obtain ⟨e1, e2, e3⟩ := h
        subst e1 e2 e3
        refine ⟨?_, by simp [hsch]⟩
        have hdl := dropLast_append_of_getLast? hdot.2
        rw [hcs, ← hta, ← hdl]
        simp [List.append_assoc]
        rw [← List.drop_one]
        exact htd.symm
      · rw [if_neg hdot] at h
        simp only [Option.some.injEq, Prod.mk.injEq] at h
        obtain ⟨e1, e2, e3⟩ := h
        subst e1 e2 e3
        refine ⟨?_, by simp [hsch]⟩
        rw [hcs, ← hta]
        simp [List.append_assoc]
        rw [← List.drop_one]
        exact htd.symm

theorem urlSearch_decomp {ci : Bool} {cs : Str} {m : UrlMatch}
    (h : urlSearch ci cs = some m) :
    cs = m.pre ++ (m.g1 ++ (m.g2 ++ m.rest)) ∧ m.g1 ≠ [] := by
  induction cs generalizing m with
  | nil => exact absurd h (by simp [urlSearch])
  | cons c cs ih =>
    rw [urlSearch] at h
    cases hm : urlMatchHere ci (c :: cs) with
    | some tr =>
      obtain ⟨g1, g2, rest⟩ := tr
      rw [hm] at h
      simp only [Option.some.injEq] at h
      subst h
      obtain ⟨hd, hg⟩ := urlMatchHere_decomp hm
      exact ⟨by simpa using hd, hg⟩
    | none =>
      rw [hm] at h
      cases hrec : urlSearch ci cs with
      | none => rw [hrec] at h; exact absurd h (by simp)
      | some m0 =>
        rw [hrec] at h
        simp only [Option.map_some', Option.some.injEq] at h
        subst h
        obtain ⟨hd, hg⟩ := ih hrec
        exact ⟨by simpa using congrArg (c :: ·) hd, hg⟩

theorem lineUrl_ne_nil {p line u : Str} (h : lineUrl p line = some u) : u ≠ [] := by
  unfold lineUrl at h
  split at h
  · exact absurd h (by simp)
  · split at h
    · obtain ⟨m, hm, he⟩ := Option.map_eq_some'.mp h
      subst he
      have := (urlSearch_decomp hm).2
      simp [this]
    · exact absurd h (by simp)

/-! ### Claims about the link extractor -/

/-- C1: preference-term priority strictly dominates line position: whenever
every term before `p` in the priority list yields no URL anywhere in the
description and `p` yields one, `parse_url` returns the URL found under `p`,
regardless of where the matching lines occur. -/
theorem claim1_priority_dominates (prefs1 : List Str) (p : Str) (prefs2 : List Str)
    (ev : RawEvent) (u : Str)
    (h1 : ∀ q ∈ prefs1, (descLines ev).findSome? (fun l => lineUrl q l) = none)
    (h2 : (descLines ev).findSome? (fun l => lineUrl p l) = some u) :
    parse_url ev (prefs1 ++ p :: prefs2) = .ok u := by
  have hscan : linkScan ev (prefs1 ++ p :: prefs2) = some u := by
    unfold linkScan
    rw [List.findSome?_append, List.findSome?_eq_none_iff.mpr h1]
    rw [List.findSome?_cons_of_isSome _ (by simp [h2])]
    simp [h2]
  unfold parse_url
  rw [hscan]

/-- Witness for C1, on a description whose `wiki:` line precedes its
`homepage:` line and the priority order `[homepage, wiki]`: the homepage
URL is returned. -/
theorem claim1_priority_dominates_witness :
    ((descLines evC1).findSome? (fun l => lineUrl "homepage".toList l) =
      some "http://www.example.org/home".toList) ∧
    parse_url evC1 prefsHW = .ok "http://www.example.org/home".toList :=
  ⟨by decide,
   claim1_priority_dominates [] "homepage".toList ["wiki".toList] evC1
     "http://www.example.org/home".toList (by simp) (by decide)⟩

/-- C2 (code bug): on a matched line whose URL is followed by a period and a
space, `parse_url` returns `m.group(0)`, which still holds the trailing
period and the following whitespace character, not the bare URL of
`group(1)`. -/
theorem claim2_group0_returned :
    parse_url evC2 ["wiki".toList] = .ok "http://example.com. ".toList ∧
    ("http://example.com. ".toList : Str) ≠ "http://example.com".toList := by
  exact ⟨by decide, by decide⟩

/-- C3 counterexample: with preferences `[wiki, homepage]`, a description
whose first `wiki:` line has no URL does not fall through to `homepage`;
the later `wiki:` line determines the result. -/
theorem claim3_counterexample :
    parse_url evC3 ["wiki".toList, "homepage".toList] = .ok "http://wiki.example/y".toList ∧
    parse_url evC3 ["wiki".toList, "homepage".toList] ≠ .ok "http://home.example/x".toList := by
  exact ⟨by decide, by decide⟩

/-- C3 amended: when the lines before `line` yield no URL for term `p` (they
do not match it, or match it without an extractable URL) and `line` yields
`u` under `p`, the extractor returns `u` — later lines matching the same
term are consulted before any lower-priority term; and only when no line
yields a URL for `p` does the scan fall through to the remaining terms. -/
theorem claim3_amended_same_term_scans_on (p : Str) (prefs : List Str) (ev : RawEvent)
    (l1 : List Str) (line : Str) (l2 : List Str) (u : Str)
    (hsplit : descLines ev = l1 ++ line :: l2)
    (h1 : ∀ l ∈ l1, lineUrl p l = none)
    (h2 : lineUrl p line = some u) :
    parse_url ev (p :: prefs) = .ok u ∧
    (∀ (q : Str) (prefs2 : List Str) (ev2 : RawEvent),
      (∀ l ∈ descLines ev2, lineUrl q l = none) →
      parse_url ev2 (q :: prefs2) = parse_url ev2 prefs2) := by
  constructor
  · have hfind : (descLines ev).findSome? (fun l => lineUrl p l) = some u := by
      rw [hsplit, List.findSome?_append, List.findSome?_eq_none_iff.mpr h1]
      rw [List.findSome?_cons_of_isSome _ (by simp [h2])]
      simp [h2]
    have hscan : linkScan ev (p :: prefs) = some u := by
      unfold linkScan
      rw [List.findSome?_cons_of_isSome _ (by simp [hfind])]
      exact hfind
    unfold parse_url
    rw [hscan]
  · intro q prefs2 ev2 hall
    have hnone : (descLines ev2).findSome? (fun l => lineUrl q l) = none :=
      List.findSome?_eq_none_iff.mpr hall
    unfold parse_url linkScan
    rw [List.findSome?_cons_of_isNone _ (by simp [hnone])]

/-- Witness for the amended C3, at the counterexample description: the later
`wiki:` line wins over the earlier `homepage:` line. -/
theorem claim3_amended_witness :
    (descLines evC3 = ["wiki: see notes".toList, "homepage: http://home.example/x".toList,
      "wiki: http://wiki.example/y".toList]) ∧
    (lineUrl "wiki".toList "wiki: see notes".toList = none) ∧
    (lineUrl "wiki".toList "homepage: http://home.example/x".toList = none) ∧
    (lineUrl "wiki".toList "wiki: http://wiki.example/y".toList =
      some "http://wiki.example/y".toList) ∧
    parse_url evC3 ("wiki".toList :: ["homepage".toList]) = .ok "http://wiki.example/y".toList :=
  ⟨by decide, by decide, by decide, by decide,
   (claim3_amended_same_term_scans_on "wiki".toList ["homepage".toList] evC3
     ["wiki: see notes".toList, "homepage: http://home.example/x".toList]
     "wiki: http://wiki.example/y".toList [] "http://wiki.example/y".toList
     (by decide) (by decide) (by decide)).1⟩

/-- If `parse_url` succeeds and the event's `htmlLink` is non-empty, the
resulting URL is non-empty: a scanned URL always starts with its scheme,
and the fallback is the `htmlLink` itself. -/
theorem parse_url_ok_ne_nil {ev : RawEvent} {prefs : List Str} {link u : Str}
    (hlink : ev.htmlLink? = some link) (hne : link ≠ [])
    (h : parse_url ev prefs = .ok u) : u ≠ [] := by
  unfold parse_url at h
  cases hscan : linkScan ev prefs with
  | some u0 =>
    rw [hscan] at h
    simp only [Except.ok.injEq] at h
    subst h
    unfold linkScan at hscan
    obtain ⟨q, _, hq⟩ := List.exists_of_findSome?_eq_some hscan
    obtain ⟨l, _, hl⟩ := List.exists_of_findSome?_eq_some hq
    exact lineUrl_ne_nil hl
  | none =>
    rw [hscan, hlink] at h
    simp only [Except.ok.injEq] at h
    subst h
    exact hne

/-- C4: when no preference term yields a URL, `parse_url` returns the
event's `htmlLink` verbatim; and every event `parse_event` produces has a
non-empty `url` whenever the raw `htmlLink` is non-empty. -/
theorem claim4_fallback_and_nonempty_url :
    (∀ (ev : RawEvent) (prefs : List Str) (link : Str),
      linkScan ev prefs = none → ev.htmlLink? = some link →
      parse_url ev prefs = .ok link) ∧
    (∀ (ev : RawEvent) (prefs : List Str) (link : Str) (evt : Event),
      ev.htmlLink? = some link → link ≠ [] →
      parse_event ev prefs = .ok evt → evt.url ≠ []) := by
  constructor
  · intro ev prefs link hscan hlink
    unfold parse_url
    rw [hscan, hlink]
  · intro ev prefs link evt hlink hne hok
    unfold parse_event at hok
    split at hok
    · simp only [Except.ok.injEq] at hok
      subst hok
      next _ _ _ _ hu => exact parse_url_ok_ne_nil hlink hne hu
    · exact absurd hok (by simp)
    · exact absurd hok (by simp)
    · exact absurd hok (by simp)
    · exact absurd hok (by simp)

/-- Witness for C4: an event with no description falls back to its
`htmlLink`, and the normalized event keeps that non-empty URL. -/
theorem claim4_witness :
    (linkScan evC4 prefsHW = none) ∧ parse_url evC4 prefsHW = .ok "http://cal.example/xyz".toList ∧
    parse_event evC4 prefsHW = .ok evtC4 ∧ evtC4.url ≠ [] :=
  ⟨by decide, claim4_fallback_and_nonempty_url.1 evC4 prefsHW _ (by decide) rfl,
   by decide,
   claim4_fallback_and_nonempty_url.2 evC4 prefsHW "http://cal.example/xyz".toList evtC4
     rfl (by decide) (by decide)⟩

/-- C10: a description line with no colon never matches a preference term —
even when the trimmed lowercased line equals the term exactly — and a
description made only of colon-free lines always yields the `htmlLink`
fallback. -/
theorem claim10_colonless_lines_never_match :
    (∀ p line : Str, ':' ∉ line → lineUrl p line = none) ∧
    (∀ (ev : RawEvent) (prefs : List Str) (link : Str),
      (∀ l ∈ descLines ev, ':' ∉ l) → ev.htmlLink? = some link →
      parse_url ev prefs = .ok link) := by
  refine ⟨fun p line h => lineUrl_of_no_colon h, ?_⟩
  intro ev prefs link hall hlink
  have hscan : linkScan ev prefs = none := by
    unfold linkScan
    refine List.findSome?_eq_none_iff.mpr (fun q _ => ?_)
    exact List.findSome?_eq_none_iff.mpr (fun l hl => lineUrl_of_no_colon (hall l hl))
  unfold parse_url
  rw [hscan, hlink]

/-- Witness for C10: the line `homepage` equals the term `homepage` but
holds no colon, so the whole description falls back to the `htmlLink`. -/
theorem claim10_witness :
    (':' ∉ "homepage".toList) ∧
    lineUrl "homepage".toList "homepage".toList = none ∧
    (∀ l ∈ descLines evC10, ':' ∉ l) ∧
    parse_url evC10 prefsHW = .ok "http://cal.example/e1".toList :=
  ⟨by decide, claim10_colonless_lines_never_match.1 "homepage".toList "homepage".toList (by decide),
   by decide, claim10_colonless_lines_never_match.2 evC10 prefsHW _ (by decide) rfl⟩

/-! ### Claims about malformed events and the empty digest -/

theorem parse_event_error_of_missing (ev : RawEvent) (prefs : List Str)
    (h : ev.summary? = none ∨ ev.start? = none ∨ ev.end? = none) :
    ∃ err, parse_event ev prefs = .error err := by
  cases hst : reqTime "start" ev.start? <;>
    cases hen : reqTime "end" ev.end? <;>
      cases hti : reqTitle ev.summary? <;>
        cases hur : parse_url ev prefs
  case ok.ok.ok.ok =>
    rcases h with h | h | h
    · rw [h] at hti; exact absurd hti (by simp [reqTitle])
    · rw [h] at hst; exact absurd hst (by simp [reqTime])
    · rw [h] at hen; exact absurd hen (by simp [reqTime])
  all_goals
    simp only [parse_event, hst, hen, hti, hur]
    exact ⟨_, rfl⟩

theorem parse_events_error_of_mem {items : List RawEvent} {prefs : List Str} {e : RawEvent}
    (hmem : e ∈ items) (herr : ∃ err, parse_event e prefs = .error err) :
    ∃ err, parse_events items prefs = .error err := by
  induction items with
  | nil => exact absurd hmem (by simp)
  | cons x rest ih =>
    cases hx : parse_event x prefs with
    | error er =>
      cases hr : parse_events rest prefs <;>
        exact ⟨er, by unfold parse_events; rw [hx, hr]⟩
    | ok ev =>
      rcases List.mem_cons.mp hmem with rfl | hmem2
      · obtain ⟨err, he⟩ := herr
        rw [hx] at he
        exact absurd he (by simp)
      · obtain ⟨err2, h2⟩ := ih hmem2
        exact ⟨err2, by unfold parse_events; rw [hx, h2]⟩

/-- C6: a raw event lacking the title field (or start, or end) makes
`parse_event` fail, and the whole digest build over any list containing it
aborts with an error: no document pair is rendered from a partial subset. -/
theorem claim6_malformed_event_aborts (items : List RawEvent) (prefs : List Str)
    (cfg : TemplateConfig) (today : Str) (e : RawEvent)
    (hmem : e ∈ items)
    (hmiss : e.summary? = none ∨ e.start? = none ∨ e.end? = none) :
    (∃ err, parse_event e prefs = .error err) ∧
    (∃ err, buildDigest items prefs cfg today = .error err) := by
  have h1 := parse_event_error_of_missing e prefs hmiss
  refine ⟨h1, ?_⟩
  obtain ⟨err, he⟩ := parse_events_error_of_mem hmem h1
  exact ⟨err, by unfold buildDigest; rw [he]⟩

/-- Witness for C6: a two-event list whose second event lacks its title. -/
theorem claim6_witness :
    (rawBad ∈ itemsC6) ∧ (rawBad.summary? = none) ∧
    ((∃ err, parse_event rawBad prefsHW = .error err) ∧
      (∃ err, buildDigest itemsC6 prefsHW cfg0 today0 = .error err)) :=
  ⟨by decide, rfl,
   claim6_malformed_event_aborts itemsC6 prefsHW cfg0 today0 rawBad (by decide) (Or.inl rfl)⟩

/-- C7: on the empty event list the assembler returns the distinct
empty-result signal rather than an error, and renders neither document. -/
theorem claim7_empty_is_noop (prefs : List Str) (cfg : TemplateConfig) (today : Str) :
    buildDigest [] prefs cfg today = .ok .empty ∧
    (∀ pt ht, buildDigest [] prefs cfg today ≠ .ok (.docs pt ht)) := by
  have h : buildDigest [] prefs cfg today = .ok .empty := by
    unfold buildDigest parse_events
    rfl
  exact ⟨h, fun pt ht hc => by rw [h] at hc; exact absurd hc (by simp)⟩

/-- Witness for C7 at a concrete configuration. -/
theorem claim7_witness :
    buildDigest [] prefsHW cfg0 today0 = .ok .empty ∧
    buildDigest [] prefsHW cfg0 today0 ≠ .ok (.docs [] []) :=
  ⟨(claim7_empty_is_noop prefsHW cfg0 today0).1,
   (claim7_empty_is_noop prefsHW cfg0 today0).2 [] []⟩

/-! ### Claim about index consistency of the two renderings -/

theorem renderAll_get {f : Event → Except DigestError Str} :
    ∀ {events : List Event} {l : List Str}, renderAll f events = .ok l →
    ∀ i (hi : i < events.length),
      ∃ s, f (events.get ⟨i, hi⟩) = .ok s ∧ l.get? i = some s := by
  intro events
  induction events with
  | nil => intro l h i hi; exact absurd hi (by simp)
  | cons e rest ih =>
    intro l h i hi
    cases hf : f e with
    | error er =>
      cases hr : renderAll f rest <;>
        · unfold renderAll at h; rw [hf, hr] at h; exact absurd h (by simp)
    | ok s0 =>
      cases hr : renderAll f rest with
      | error er => unfold renderAll at h; rw [hf, hr] at h; exact absurd h (by simp)
      | ok l0 =>
        unfold renderAll at h; rw [hf, hr] at h
        simp only [Except.ok.injEq] at h
        subst h
        cases i with
        | zero => exact ⟨s0, hf, rfl⟩
        | succ j =>
          obtain ⟨s, hs, hg⟩ := ih hr j (by simpa using hi)
          exact ⟨s, hs, hg⟩

theorem renderAllIdx_get {f : Event → Nat → Except DigestError Str} :
    ∀ {events : List Event} {i0 : Nat} {l : List Str}, renderAllIdx f i0 events = .ok l →
    ∀ i (hi : i < events.length),
      ∃ s, f (events.get ⟨i, hi⟩) (i0 + i) = .ok s ∧ l.get? i = some s := by
  intro events
  induction events with
  | nil => intro i0 l h i hi; exact absurd hi (by simp)
  | cons e rest ih =>
    intro i0 l h i hi
    cases hf : f e i0 with
    | error er =>
      cases hr : renderAllIdx f (i0 + 1) rest <;>
        · unfold renderAllIdx at h; rw [hf, hr] at h; exact absurd h (by simp)
    | ok s0 =>
      cases hr : renderAllIdx f (i0 + 1) rest with
      | error er => unfold renderAllIdx at h; rw [hf, hr] at h; exact absurd h (by simp)
      | ok l0 =>
        unfold renderAllIdx at h; rw [hf, hr] at h
        simp only [Except.ok.injEq] at h
        subst h
        cases i with
        | zero => exact ⟨s0, by simpa using hf, rfl⟩
        | succ j =>
          obtain ⟨s, hs, hg⟩ := ih hr j (by simpa using hi)
          refine ⟨s, ?_, hg⟩
          have harith : i0 + 1 + j = i0 + (j + 1) := by omega
          rwa [harith] at hs

/-- C5: for every event list, the fragment lists built by the two document
generators are aligned: the event at 0-based position `i` is rendered with
1-based index `i + 1` in the HTML and plaintext detail sections, and the same
event's summary fragment sits at the same position `i` of both summary
sections (the plaintext summary also carrying index `i + 1`). -/
theorem claim5_consistent_numbering (events : List Event)
    (sumT detT psumT pdetT : Template) (sums dets psums pdets : List Str)
    (i : Nat) (hi : i < events.length)
    (h1 : renderAll (fun e => html_summary e sumT) events = .ok sums)
    (h2 : renderAllIdx (fun e j => html_details e j detT) 1 events = .ok dets)
    (h3 : renderAllIdx (fun e j => plaintext_summary e j psumT) 1 events = .ok psums)
    (h4 : renderAllIdx (fun e j => plaintext_details e j pdetT) 1 events = .ok pdets) :
    (∃ s, html_details (events.get ⟨i, hi⟩) (i + 1) detT = .ok s ∧ dets.get? i = some s) ∧
    (∃ s, html_summary (events.get ⟨i, hi⟩) sumT = .ok s ∧ sums.get? i = some s) ∧
    (∃ s, plaintext_details (events.get ⟨i, hi⟩) (i + 1) pdetT = .ok s ∧
      pdets.get? i = some s) ∧
    (∃ s, plaintext_summary (events.get ⟨i, hi⟩) (i + 1) psumT = .ok s ∧
      psums.get? i = some s) := by
  have harith : 1 + i = i + 1 := by omega
  refine ⟨?_, renderAll_get h1 i hi, ?_, ?_⟩
  · obtain ⟨s, hs, hg⟩ := renderAllIdx_get h2 i hi
    exact ⟨s, by rwa [harith] at hs, hg⟩
  · obtain ⟨s, hs, hg⟩ := renderAllIdx_get h4 i hi
    exact ⟨s, by rwa [harith] at hs, hg⟩
  · obtain ⟨s, hs, hg⟩ := renderAllIdx_get h3 i hi
    exact ⟨s, by rwa [harith] at hs, hg⟩

/-- Witness for C5: a three-event digest whose detail entry numbered 2 is the
summary entry at position 2 in both formats. -/
theorem claim5_witness :
    (renderAll (fun e => html_summary e sumT5) events5 =
      .ok ["Alpha".toList, "Beta".toList, "Gamma".toList]) ∧
    (renderAllIdx (fun e j => html_details e j detT5) 1 events5 =
      .ok ["1: Alpha".toList, "2: Beta".toList, "3: Gamma".toList]) ∧
    (renderAllIdx (fun e j => plaintext_summary e j psumT5) 1 events5 =
      .ok ["1) Alpha".toList, "2) Beta".toList, "3) Gamma".toList]) ∧
    (renderAllIdx (fun e j => plaintext_details e j pdetT5) 1 events5 =
      .ok ["1. Alpha".toList, "2. Beta".toList, "3. Gamma".toList]) ∧
    ((∃ s, html_details (events5.get ⟨1, by decide⟩) 2 detT5 = .ok s ∧
        ["1: Alpha".toList, "2: Beta".toList, "3: Gamma".toList].get? 1 = some s) ∧
      (∃ s, html_summary (events5.get ⟨1, by decide⟩) sumT5 = .ok s ∧
        ["Alpha".toList, "Beta".toList, "Gamma".toList].get? 1 = some s) ∧
      (∃ s, plaintext_details (events5.get ⟨1, by decide⟩) 2 pdetT5 = .ok s ∧
        ["1. Alpha".toList, "2. Beta".toList, "3. Gamma".toList].get? 1 = some s) ∧
      (∃ s, plaintext_summary (events5.get ⟨1, by decide⟩) 2 psumT5 = .ok s ∧
        ["1) Alpha".toList, "2) Beta".toList, "3) Gamma".toList].get? 1 = some s)) :=
  ⟨by decide, by decide, by decide, by decide,
   claim5_consistent_numbering events5 sumT5 detT5 psumT5 pdetT5
     ["Alpha".toList, "Beta".toList, "Gamma".toList]
     ["1: Alpha".toList, "2: Beta".toList, "3: Gamma".toList]
     ["1) Alpha".toList, "2) Beta".toList, "3) Gamma".toList]
     ["1. Alpha".toList, "2. Beta".toList, "3. Gamma".toList]
     1 (by decide) (by decide) (by decide) (by decide) (by decide)⟩

/-! ### Claim about the absence of HTML escaping -/

theorem urlAutolinkGo_of_none {s : Str} (h : urlSearch true s = none) :
    ∀ fuel, urlAutolinkGo fuel s = s := by
  intro fuel
  cases fuel with
  | zero => rfl
  | succ f => unfold urlAutolinkGo; rw [h]

theorem urlAutolink_eq_self {s : Str} (h : urlSearch true s = none) : urlAutolink s = s :=
  urlAutolinkGo_of_none h _

theorem emailAutolinkGo_of_none {s : Str} (h : emailSearch s = none) :
    ∀ fuel, emailAutolinkGo fuel s = s := by
  intro fuel
  cases fuel with
  | zero => rfl
  | succ f => unfold emailAutolinkGo; rw [h]

theorem emailAutolink_eq_self {s : Str} (h : emailSearch s = none) : emailAutolink s = s :=
  emailAutolinkGo_of_none h _

theorem nlToBr_eq_self {s : Str} (h : '\n' ∉ s) : nlToBr s = s := by
  induction s with
  | nil => rfl
  | cons c rest ih =>
    simp only [List.mem_cons, not_or] at h
    have hc : ¬(c == '\n') = true := by
      simp only [beq_iff_eq]
      exact fun hh => h.1 hh.symm
    have ih2 := ih h.2
    unfold nlToBr at ih2 ⊢
    rw [List.flatMap_cons, if_neg hc, ih2]
    rfl

/-- C9 (implicit): no HTML escaping happens during HTML rendering — the
title, summary and description values land in the rendered fragments
verbatim, markup characters included; the only transformations applied to
the detail description are URL/email auto-linking and newline conversion,
which leave a description free of URLs, emails and newlines untouched. -/
theorem claim9_no_html_escaping (e : Event) (i : Nat) (a b : Str)
    (h1 : urlSearch true e.description = none)
    (h2 : emailSearch e.description = none)
    (h3 : '\n' ∉ e.description) :
    html_summary e [.lit a, .field "title", .lit b] = .ok (a ++ (e.title ++ b)) ∧
    html_summary e [.lit a, .field "summary", .lit b] = .ok (a ++ (e.summary ++ b)) ∧
    html_summary e [.lit a, .field "description", .lit b] = .ok (a ++ (e.description ++ b)) ∧
    html_details e i [.lit a, .field "title", .lit b] = .ok (a ++ (e.title ++ b)) ∧
    html_details e i [.lit a, .field "description", .lit b] =
      .ok (a ++ (e.description ++ b)) := by
  have hd : nlToBr (emailAutolink (urlAutolink e.description)) = e.description := by
    rw [urlAutolink_eq_self h1, emailAutolink_eq_self h2, nlToBr_eq_self h3]
  refine ⟨?_, ?_, ?_, ?_, ?_⟩ <;>
    simp [html_summary, html_details, substTemplate, htmlSummaryMap, htmlDetailsMap,
      eventMap, hd, Except.map]

/-- Witness for C9: an event whose fields hold raw `<`, `>` and `&`
characters renders them unescaped. -/
theorem claim9_witness :
    (urlSearch true evC9.description = none) ∧ (emailSearch evC9.description = none) ∧
    ('\n' ∉ evC9.description) ∧
    html_summary evC9 [.lit "<p>".toList, .field "title", .lit "</p>".toList] =
      .ok ("<p>".toList ++ ("<i>T</i> & Q".toList ++ "</p>".toList)) ∧
    html_details evC9 1 [.lit "<p>".toList, .field "description", .lit "</p>".toList] =
      .ok ("<p>".toList ++ ("<b>R&D</b> news".toList ++ "</p>".toList)) :=
  ⟨by decide, by decide, by decide,
   (claim9_no_html_escaping evC9 1 "<p>".toList "</p>".toList
     (by decide) (by decide) (by decide)).1,
   (claim9_no_html_escaping evC9 1 "<p>".toList "</p>".toList
     (by decide) (by decide) (by decide)).2.2.2.2⟩

/-! ### Claim about URL/email auto-linking in the HTML details -/

theorem matchScheme_http (x : Str) :
    matchScheme true ("http://".toList ++ x) = some ("http://".toList, x) := rfl

theorem urlMatchHere_at_url (tok b : Str) (h2 : ∀ c ∈ tok, isPySpace c = false)
    (h3 : tok ≠ []) (h4 : tok.getLast? ≠ some '.') :
    urlMatchHere true ("http://".toList ++ (tok ++ ' ' :: b)) =
      some ("http://".toList ++ tok, [' '], b) := by
  have htw : (tok ++ ' ' :: b).takeWhile (fun c => !isPySpace c) = tok := by
    rw [List.takeWhile_append_of_pos (by intro a ha; simp [h2 a ha])]
    rw [List.takeWhile_cons_of_neg (by simp [isPySpace])]
    simp
  have hdw : (tok ++ ' ' :: b).dropWhile (fun c => !isPySpace c) = ' ' :: b := by
    rw [List.dropWhile_append_of_pos (by intro a ha; simp [h2 a ha])]
    rw [List.dropWhile_cons_of_neg (by simp [isPySpace])]
  unfold urlMatchHere
  simp only [matchScheme_http, htw, hdw]
  rw [if_neg h3, if_neg (fun hh : _ ∧ _ => h4 hh.2)]
  rfl

theorem urlSearch_of_matchHere {ci : Bool} {cs g1 g2 rest : Str}
    (hne : cs ≠ []) (h : urlMatchHere ci cs = some (g1, g2, rest)) :
    urlSearch ci cs = some ⟨[], g1, g2, rest⟩ := by
  cases cs with
  | nil => exact absurd rfl hne
  | cons c cs2 =>
    unfold urlSearch
    rw [h]

theorem urlSearch_append_of_no_scheme {ci : Bool} (a : Str) {tail : Str} {m : UrlMatch}
    (h : ∀ i, i < a.length → matchScheme ci ((a ++ tail).drop i) = none)
    (hm : urlSearch ci tail = some m) :
    urlSearch ci (a ++ tail) = some ⟨a ++ m.pre, m.g1, m.g2, m.rest⟩ := by
  induction a with
  | nil => simpa using hm
  | cons c a2 ih =>
    have h0 : matchScheme ci (c :: (a2 ++ tail)) = none := by
      have := h 0 (by simp)
      simpa using this
    have hmh : urlMatchHere ci (c :: (a2 ++ tail)) = none := by
      unfold urlMatchHere; rw [h0]
    have hrec := ih (fun i hi => by
      have := h (i + 1) (by simp only [List.length_cons]; omega)
      simpa using this)
    show urlSearch ci (c :: (a2 ++ tail)) = _
    unfold urlSearch
    rw [hmh, hrec]
    rfl

theorem urlAutolinkGo_step {fuel : Nat} {cs : Str} {m : UrlMatch}
    (h : urlSearch true cs = some m) :
    urlAutolinkGo (fuel + 1) cs =
      m.pre ++ (anchorFor m.g1 ++ (m.g2 ++ urlAutolinkGo fuel m.rest)) := by
  rw [urlAutolinkGo]
  rw [h]
  simp [List.append_assoc]

theorem urlAutolinkGo_stable :
    ∀ (f1 f2 : Nat) (cs : Str), cs.length ≤ f1 → cs.length ≤ f2 →
    urlAutolinkGo f1 cs = urlAutolinkGo f2 cs := by
  intro f1
  induction f1 with
  | zero =>
    intro f2 cs h1 h2
    have hcs : cs = [] := by
      cases cs with
      | nil => rfl
      | cons c r => simp at h1
    subst hcs
    cases f2 with
    | zero => rfl
    | succ f => rfl
  | succ f1 ih =>
    intro f2 cs h1 h2
    cases f2 with
    | zero =>
      have hcs : cs = [] := by
        cases cs with
        | nil => rfl
        | cons c r => simp at h2
      subst hcs
      rfl
    | succ f2 =>
      unfold urlAutolinkGo
      cases hs : urlSearch true cs with
      | none => rfl
      | some m =>
        dsimp only
        obtain ⟨hd, hg⟩ := urlSearch_decomp hs
        have hgl : 1 ≤ m.g1.length := List.length_pos.mpr hg
        have hlen : m.rest.length + 1 ≤ cs.length := by
          have := congrArg List.length hd
          simp only [List.length_append] at this
          omega
        rw [ih f2 m.rest (by omega) (by omega)]

/-- C8: in the HTML detail description, a bare URL followed by whitespace is
wrapped in an anchor whose href and link text are exactly the URL (trailing
period excluded, as the concrete instances show), email addresses are
wrapped in `mailto:` anchors, and embedded newlines become `<br>` line
breaks. -/
theorem claim8_autolinking (a tok b : Str)
    (h1 : ∀ i, i < a.length →
      matchScheme true ((a ++ ("http://".toList ++ (tok ++ ' ' :: b))).drop i) = none)
    (h2 : ∀ c ∈ tok, isPySpace c = false)
    (h3 : tok ≠ []) (h4 : tok.getLast? ≠ some '.') :
    (urlAutolink (a ++ ("http://".toList ++ (tok ++ ' ' :: b))) =
      a ++ (anchorFor ("http://".toList ++ tok) ++ (' ' :: urlAutolink b))) ∧
    (urlAutolink "see http://example.com/page. now".toList =
      "see <a href=\"http://example.com/page\">http://example.com/page</a>. now".toList) ∧
    (htmlDetailsMap evC8mail 1 "description" =
      some "contact <a href=\"mailto:admin@example.org\">admin@example.org</a> today".toList) ∧
    (∀ s1 s2 : Str, nlToBr (s1 ++ '\n' :: s2) =
      nlToBr s1 ++ ("<br>\n".toList ++ nlToBr s2)) ∧
    (htmlDetailsMap evC8url 1 "description" =
      some "see <a href=\"http://example.com/page\">http://example.com/page</a> for info".toList) := by
  refine ⟨?_, by decide, by decide, ?_, by decide⟩
  · have hm1 := urlMatchHere_at_url tok b h2 h3 h4
    have hm2 : urlSearch true ("http://".toList ++ (tok ++ ' ' :: b)) =
        some ⟨[], "http://".toList ++ tok, [' '], b⟩ :=
      urlSearch_of_matchHere (by simp) hm1
    have hm3 := urlSearch_append_of_no_scheme a h1 hm2
    unfold urlAutolink
    rw [urlAutolinkGo_step hm3]
    rw [urlAutolinkGo_stable (a ++ ("http://".toList ++ (tok ++ ' ' :: b))).length
      (b.length + 1) b (by simp [List.length_append]; omega) (by omega)]
    simp
  · intro s1 s2
    simp [nlToBr, List.flatMap_append, List.flatMap_cons]

/-- Witness for C8, at the spec's example description
`see http://example.com/page for info`. -/
theorem claim8_witness :
    (∀ i, i < ("see ".toList : Str).length →
      matchScheme true (("see ".toList ++ ("http://".toList ++
        ("example.com/page".toList ++ ' ' :: "for info".toList))).drop i) = none) ∧
    (∀ c ∈ ("example.com/page".toList : Str), isPySpace c = false) ∧
    ("example.com/page".toList ≠ ([] : Str)) ∧
    (("example.com/page".toList : Str).getLast? ≠ some '.') ∧
    urlAutolink ("see ".toList ++ ("http://".toList ++
        ("example.com/page".toList ++ ' ' :: "for info".toList))) =
      "see ".toList ++ (anchorFor ("http://".toList ++ "example.com/page".toList) ++
        (' ' :: urlAutolink "for info".toList)) :=
  ⟨by decide, by decide, by decide, by decide,
   (claim8_autolinking "see ".toList "example.com/page".toList "for info".toList
     (by decide) (by decide) (by decide) (by decide)).1⟩
